import Mathlib

/-!
Verification of the persistence layer of `advanced-shell-history`
(`src/database.cpp`, `src/database.hpp`), against its natural-language
specification.

The sqlite3 engine is modelled as the sequence of responses it gives to the
successive `sqlite3_prepare_v2` / `sqlite3_step` calls: each call consumes
the next element of an explicit trace.  Re-preparing a statement does not
rewind the trace — the trace is simply the stream of answers the engine
produces over the whole execution, in order.  `LOG(FATAL)` (which calls
`exit(1)` from `Logger::~Logger`) is modelled as a terminal `fatal` outcome.
-/

namespace ash

/-- `Config::get_int` returns `atoi(env)` when the key is set and the default
(`-1` at every call site in `database.cpp`) otherwise.  The model takes the
returned value directly as an `Int` parameter named `cfg`. -/
def effectiveMaxRetries (cfg : Int) : Int :=
  if cfg ≤ 0 then 5 else cfg

/-! ## DBObject::quote (database.cpp:457-486) -/

/-- C-locale `isprint`: the printable ASCII range `0x20 .. 0x7E`. -/
def isprint (c : Char) : Bool :=
  0x20 ≤ c.toNat && c.toNat ≤ 0x7E

/-- The loop body of `DBObject::quote(const string &)` (database.cpp:471-483):
`out` accumulates the quoted text.  `'\n'` and `'\t'` are pushed unchanged;
`'\''` is pushed and then falls through to the default case (which pushes it
again when printable); any other character is pushed only when printable. -/
def quoteLoop : List Char → List Char → List Char
  | out, [] => out
  | out, c :: rest =>
    if c = '\n' ∨ c = '\t' then
      quoteLoop (out ++ [c]) rest
    else if c = '\'' then
      quoteLoop (out ++ [c] ++ (if isprint c then [c] else [])) rest
    else if isprint c then
      quoteLoop (out ++ [c]) rest
    else
      quoteLoop out rest

/-- `DBObject::quote(const string &)` (database.cpp:467-486): empty input
yields the unquoted `null` keyword; otherwise `out` starts as `"'"`, the loop
runs over the input, and a closing `'` is appended. -/
def DBObject.quote (s : List Char) : List Char :=
  if s = [] then "null".toList
  else quoteLoop ['\''] s ++ ['\'']

/-- Per-character description of quoting taken from the spec's words
(spec §4.4): an embedded single quote is doubled; tab and newline pass
through unchanged; any other non-printable character is dropped; printable
characters pass through.  Used only to compare with the source-derived
`quoteLoop`. -/
def quoteSpecChar (c : Char) : List Char :=
  if c = '\'' then [c, c]
  else if c = '\t' ∨ c = '\n' then [c]
  else if isprint c then [c] else []

/-! ## ash_sleep delay computation (database.cpp:176-198)

Only the delay computation and the seeding of the generator are modelled;
the actual `clock_nanosleep` loop is real time and is out of scope.  `randf`
models libc `rand` as a function from the seed passed to `srand` to the first
value drawn after seeding (the code draws exactly once per call). -/

/-- The delay in milliseconds computed by `ash_sleep` (database.cpp:179-196):
negative configured values are coerced to 0, and when `DB_FAIL_RANDOM_TIMEOUT`
is positive the generator is seeded with `time(0) ^ getpid()` and
`rand() % random_ms` is added to the fixed delay. -/
def ash_delay (randf : Nat → Nat) (timeNow pid : Nat) (cfgFail cfgRandom : Int) : Nat :=
  let fail_ms : Int := if cfgFail < 0 then 0 else cfgFail
  let random_ms : Int := if cfgRandom < 0 then 0 else cfgRandom
  let ms : Nat := fail_ms.toNat
  if 0 < random_ms then ms + randf (timeNow ^^^ pid) % random_ms.toNat
  else ms

/-! ## Database::prepare_stmt (database.cpp:295-325) -/

/-- Outcome of one `sqlite3_prepare_v2` attempt, as observed by
`prepare_stmt`: either a non-null statement is produced (`success`), or the
error code is `SQLITE_BUSY` / `SQLITE_LOCKED`, or some other error code. -/
inductive PrepResult where
  | success
  | busy
  | locked
  | otherError (code : Nat)
  deriving DecidableEq, Repr

/-- Result of `prepare_stmt`: a statement after `sleeps` calls to
`ash_sleep`, or process termination via `LOG(FATAL)`, or the supplied
response trace ran out. -/
inductive PrepOutcome where
  | ok (sleeps : Nat)
  | fatal
  | truncated
  deriving DecidableEq, Repr

/-- The `try_prepare` retry loop of `prepare_stmt` (database.cpp:303-324):
on busy/locked the statement is finalized and, if `--tries > 0`, `ash_sleep`
runs and compilation is retried; otherwise `LOG(FATAL)`.  Any other error
code is immediately `LOG(FATAL)`. -/
def prepGo : Int → List PrepResult → Nat → PrepOutcome
  | _, [], _ => .truncated
  | _, .success :: _, sleeps => .ok sleeps
  | tries, .busy :: rest, sleeps =>
      if tries - 1 > 0 then prepGo (tries - 1) rest (sleeps + 1) else .fatal
  | tries, .locked :: rest, sleeps =>
      if tries - 1 > 0 then prepGo (tries - 1) rest (sleeps + 1) else .fatal
  | _, .otherError _ :: _, _ => .fatal

/-- `Database::prepare_stmt` (database.cpp:295-325): reads `DB_MAX_RETRIES`
(coercing values `≤ 0` to 5), sets `tries = max_retries + 1`, and runs the
retry loop over the engine's responses. -/
def prepare_stmt (cfg : Int) (trace : List PrepResult) : PrepOutcome :=
  prepGo (effectiveMaxRetries cfg + 1) trace 0

/-! ## ResultSet (database.hpp:43-66, database.cpp:65-72) -/

/-- `ResultSet` (database.hpp:43-66): `const` headers, data and counts; all
fields are fixed at construction (the copy constructor and assignment are
disallowed, so the object is immutable). -/
structure ResultSet where
  headers : List String
  data : List (List String)
  rows : Nat
  columns : Nat
  deriving DecidableEq, Repr

/-- The `ResultSet` constructor (database.cpp:65-72): `rows` is set to
`d.size()` and `columns` to `h.size()`. -/
def ResultSet.make (h : List String) (d : List (List String)) : ResultSet :=
  ⟨h, d, d.length, h.length⟩

/-! ## Database::exec (database.cpp:331-421) -/

/-- Outcome of one `sqlite3_step` on the prepared statement, as dispatched by
the `switch` in `Database::exec`: a produced row (with the text of each cell
the engine reports, `none` for a NULL cell modelled as an absent entry),
`SQLITE_CONSTRAINT`, `SQLITE_DONE`, `SQLITE_BUSY`/`SQLITE_LOCKED`, or any
other code. -/
inductive StepResult where
  | row (cells : List String)
  | constraint
  | done
  | busy
  | locked
  | otherError (code : Nat)
  deriving DecidableEq, Repr

/-- Outcome of `Database::exec`: a returned `ResultSet *` (possibly null,
modelled as `Option`), process termination via `LOG(FATAL)`, or the supplied
response trace ran out. -/
inductive ExecOutcome where
  | ok (rs : Option ResultSet)
  | fatal
  | truncated
  deriving DecidableEq, Repr

/-- The row the inner column loop builds (database.cpp:363-370): exactly
`columns` cells are pushed, each the engine's text for that column, or `""`
when `sqlite3_column_text` returns NULL (modelled as a missing entry of
`cells`). -/
def mkRow (columns : Nat) (cells : List String) : List String :=
  (List.range columns).map (fun c => cells.getD c "")

/-- The `finalize` block of `Database::exec` (database.cpp:413-420): the
collected rows are reversed when `reverse && rows`, and a `ResultSet` is
returned exactly when the loop counter `rows` is nonzero. -/
def execFinalize (rev : Bool) (headers : List String)
    (results : List (List String)) (rows : Nat) : ExecOutcome :=
  let results := if rev ∧ rows ≠ 0 then results.reverse else results
  if rows ≠ 0 then .ok (some (ResultSet.make headers results)) else .ok none

/-- The `try_sql` loop of `Database::exec` (database.cpp:347-409).  The for
loop runs while `fetched < limit || limit <= 0`, consuming one engine
response per iteration:
* `SQLITE_ROW`: headers are captured from the column metadata if still
  empty, the row is appended, `fetched` and `rows` advance;
* `SQLITE_CONSTRAINT` and `SQLITE_DONE`: jump to `finalize`;
* `SQLITE_BUSY` / `SQLITE_LOCKED`: `LOG(FATAL)` when `tries <= 0`, otherwise
  `ash_sleep`, re-prepare (modelled as succeeding; `prepare_stmt`'s own
  failure modes are modelled separately), decrement `tries` and jump back to
  `try_sql`, which resets `fetched` — and therefore the loop's `rows`
  counter — but leaves `headers` and `results` as they are;
* any other code: `LOG(FATAL)`.
Falling out of the for loop (limit reached) also reaches `finalize`. -/
def execLoop (colNames : List String) (limit : Int) (rev : Bool) :
    List StepResult → Int → List String → List (List String) → Int → Nat →
    ExecOutcome
  | [], _, headers, results, fetched, rows =>
      if fetched < limit ∨ limit ≤ 0 then .truncated
      else execFinalize rev headers results rows
  | .row cells :: rest, tries, headers, results, fetched, rows =>
      if fetched < limit ∨ limit ≤ 0 then
        execLoop colNames limit rev rest tries
          (if headers = [] then colNames else headers)
          (results ++ [mkRow colNames.length cells]) (fetched + 1) (rows + 1)
      else execFinalize rev headers results rows
  | .constraint :: _, _, headers, results, fetched, rows =>
      if fetched < limit ∨ limit ≤ 0 then execFinalize rev headers results rows
      else execFinalize rev headers results rows
  | .done :: _, _, headers, results, fetched, rows =>
      if fetched < limit ∨ limit ≤ 0 then execFinalize rev headers results rows
      else execFinalize rev headers results rows
  | .busy :: rest, tries, headers, results, fetched, rows =>
      if fetched < limit ∨ limit ≤ 0 then
        if tries ≤ 0 then .fatal
        else execLoop colNames limit rev rest (tries - 1) headers results 0 0
      else execFinalize rev headers results rows
  | .locked :: rest, tries, headers, results, fetched, rows =>
      if fetched < limit ∨ limit ≤ 0 then
        if tries ≤ 0 then .fatal
        else execLoop colNames limit rev rest (tries - 1) headers results 0 0
      else execFinalize rev headers results rows
  | .otherError _ :: _, _, headers, results, fetched, rows =>
      if fetched < limit ∨ limit ≤ 0 then .fatal
      else execFinalize rev headers results rows

/-- `Database::exec` (database.cpp:331-421): reads `DB_MAX_RETRIES` (values
`≤ 0` coerced to 5), sets `tries = max_retries + 1`, prepares the statement
(`colNames` are its column names, so `columns = colNames.length`), and runs
the stepping loop with empty header and row buffers. -/
def Database.exec (colNames : List String) (trace : List StepResult)
    (cfg : Int) (limit : Int) (rev : Bool) : ExecOutcome :=
  execLoop colNames limit rev trace (effectiveMaxRetries cfg + 1) [] [] 0 0

/-- A contention-free run of rows: the engine answers `SQLITE_ROW` once per
element of `cs`. -/
def rowTrace (cs : List (List String)) : List StepResult :=
  cs.map StepResult.row

/-! ## Schema bootstrap decision in the Database constructor
(database.cpp:113-127) -/

/-- The tail of the `Database` constructor (database.cpp:113-127), after the
`sqlite_master` count query has produced `defined` (the number of registered
table names already present) out of `registered` (the registry's size):
returns `(init_db was run, a WARNING was logged)`.  When the counts are
equal the constructor returns at once; otherwise `init_db()` runs
unconditionally, and a (non-fatal) `LOG(WARNING)` follows when `defined`
exceeds `registered`.  Neither path calls `LOG(FATAL)`. -/
def databaseBootstrap (registered defined : Nat) : Bool × Bool :=
  if defined = registered then (false, false)
  else (true, decide (registered < defined))

/-! ## DBObject::get_sql and Database::insert
(database.cpp:283-287, 509-533) -/

/-- A concrete `DBObject` (database.hpp:93-123): a table name (`get_name`)
and the `values` map from column name to pre-quoted literal, in the map's
iteration order. -/
structure DBObjectData where
  name : String
  values : List (String × String)
  deriving DecidableEq, Repr

/-- `DBObject::get_sql` (database.cpp:509-533): renders
`INSERT INTO <name> (<columns joined by comma>) VALUES (<literals joined by
comma>); `, both lists in the same iteration order of `values`. -/
def DBObject.get_sql (o : DBObjectData) : String :=
  "INSERT INTO " ++ o.name ++ " (" ++
    String.intercalate ", " (o.values.map Prod.fst) ++
  ") VALUES (" ++
    String.intercalate ", " (o.values.map Prod.snd) ++
  "); "

/-- The engine-visible state `Database::insert` touches: the last row id the
connection reports via `sqlite3_last_insert_rowid`, plus the list of SQL
texts executed on the connection (for stating that nothing ran). -/
structure DBState where
  lastInsertRowid : Int
  executed : List String
  deriving DecidableEq, Repr

/-- `Database::insert` (database.cpp:283-287): a null object returns 0 at
once; otherwise `exec(object->get_sql())` runs (its effect on the connection
abstracted as `e`) and `sqlite3_last_insert_rowid` of the resulting state is
returned. -/
def Database.insert (e : String → DBState → DBState)
    (obj : Option DBObjectData) (st : DBState) : Int × DBState :=
  match obj with
  | none => (0, st)
  | some o => ((e (DBObject.get_sql o) st).lastInsertRowid,
               e (DBObject.get_sql o) st)

/-! # Lemmas -/

/-- The quoting loop appends, for each input character, exactly the
characters the spec's per-character description produces. -/
theorem quoteLoop_eq (s : List Char) : ∀ out : List Char,
    quoteLoop out s = out ++ s.flatMap quoteSpecChar := by
  induction s with
  | nil => intro out; simp [quoteLoop]
  | cons c rest ih =>
    intro out
    by_cases h1 : c = '\n' ∨ c = '\t'
    · have hq : quoteSpecChar c = [c] := by
        rcases h1 with h | h <;> subst h <;> decide
      rw [quoteLoop, if_pos h1, ih]
      simp [hq]
    · by_cases h2 : c = '\''
      · subst h2
        have hq : quoteSpecChar '\'' = ['\'', '\''] := by decide
        rw [quoteLoop, if_neg h1, if_pos rfl, ih]
        simp [hq, isprint]
      · by_cases h3 : isprint c
        · have hq : quoteSpecChar c = [c] := by
            unfold quoteSpecChar
            rw [if_neg h2, if_neg ?_, if_pos h3]
            intro hc
            rcases hc with h | h <;> exact h1 (by simp [h])
          rw [quoteLoop, if_neg h1, if_neg h2, if_pos h3, ih]
          simp [hq]
        · have hq : quoteSpecChar c = [] := by
            unfold quoteSpecChar
            rw [if_neg h2, if_neg ?_, if_neg h3]
            intro hc
            rcases hc with h | h <;> exact h1 (by simp [h])
          rw [quoteLoop, if_neg h1, if_neg h2, if_neg h3, ih]
          simp [hq]

/-- A run of `k` busy responses followed by a successful compile succeeds,
sleeping once per retry, provided the try budget exceeds `k`. -/
theorem prepGo_busy_ok (k : Nat) : ∀ (tries : Int) (rest : List PrepResult)
    (s : Nat), (k : Int) < tries →
    prepGo tries (List.replicate k .busy ++ .success :: rest) s = .ok (s + k) := by
  induction k with
  | zero => intro tries rest s _; simp [prepGo]
  | succ k ih =>
    intro tries rest s hk
    rw [List.replicate_succ, List.cons_append, prepGo, if_pos (by omega)]
    rw [ih (tries - 1) rest (s + 1) (by omega)]
    have : s + 1 + k = s + (k + 1) := by omega
    rw [this]

/-- A run of at least `tries` busy responses exhausts a positive try budget:
the `--tries > 0` test fails at the `tries`-th busy response and the call is
fatal. -/
theorem prepGo_busy_fatal (k : Nat) : ∀ (tries : Int) (rest : List PrepResult)
    (s : Nat), 0 < tries → tries ≤ (k : Int) →
    prepGo tries (List.replicate k .busy ++ rest) s = .fatal := by
  induction k with
  | zero => intro tries rest s h1 h2; omega
  | succ k ih =>
    intro tries rest s h1 h2
    rw [List.replicate_succ, List.cons_append, prepGo]
    by_cases h : tries - 1 > 0
    · rw [if_pos h, ih (tries - 1) rest (s + 1) (by omega) (by omega)]
    · rw [if_neg h]

/-- A successful `prepGo` run consists of busy/locked responses followed by
a successful compile, with one sleep per leading response. -/
theorem prepGo_ok_shape : ∀ (t : List PrepResult) (tries : Int) (s n : Nat),
    prepGo tries t s = .ok n →
    ∃ pre post, t = pre ++ .success :: post ∧ s + pre.length = n ∧
      ∀ x ∈ pre, x = PrepResult.busy ∨ x = PrepResult.locked := by
  intro t
  induction t with
  | nil => intro tries s n h; exact absurd h (by simp [prepGo])
  | cons hd rest ih =>
    intro tries s n h
    cases hd with
    | success =>
      refine ⟨[], rest, rfl, ?_, by simp⟩
      have : PrepOutcome.ok s = .ok n := by simpa [prepGo] using h
      simpa using this
    | busy =>
      rw [prepGo] at h
      by_cases hb : tries - 1 > 0
      · rw [if_pos hb] at h
        obtain ⟨pre, post, h1, h2, h3⟩ := ih (tries - 1) (s + 1) n h
        refine ⟨.busy :: pre, post, by simp [h1], by simp; omega, ?_⟩
        intro x hx
        rcases List.mem_cons.1 hx with h | h
        · exact Or.inl h
        · exact h3 x h
      · rw [if_neg hb] at h; exact absurd h (by simp)
    | locked =>
      rw [prepGo] at h
      by_cases hb : tries - 1 > 0
      · rw [if_pos hb] at h
        obtain ⟨pre, post, h1, h2, h3⟩ := ih (tries - 1) (s + 1) n h
        refine ⟨.locked :: pre, post, by simp [h1], by simp; omega, ?_⟩
        intro x hx
        rcases List.mem_cons.1 hx with h | h
        · exact Or.inr h
        · exact h3 x h
      · rw [if_neg hb] at h; exact absurd h (by simp)
    | otherError c => exact absurd h (by simp [prepGo])

/-- When the for-loop condition `fetched < limit || limit <= 0` fails, the
loop exits to `finalize` without consuming an engine response. -/
theorem execLoop_stop (cN : List String) (L : Int) (b : Bool)
    (trace : List StepResult) (tries : Int) (h : List String)
    (res : List (List String)) (f : Int) (r : Nat)
    (hc : ¬ (f < L ∨ L ≤ 0)) :
    execLoop cN L b trace tries h res f r = execFinalize b h res r := by
  cases trace with
  | nil => rw [execLoop, if_neg hc]
  | cons s rest => cases s <;> (rw [execLoop, if_neg hc])

/-- Stepping through a run of produced rows, while the limit allows it,
appends the corresponding built rows to the buffer, sets the headers on the
first row ever fetched, and advances `fetched` and the loop counter. -/
theorem execLoop_rows (cN : List String) (L : Int) (b : Bool)
    (cs : List (List String)) :
    ∀ (rest : List StepResult) (tries : Int) (h : List String)
      (res : List (List String)) (f : Int) (r : Nat),
      (L ≤ 0 ∨ f + cs.length ≤ L) →
      execLoop cN L b (rowTrace cs ++ rest) tries h res f r =
        execLoop cN L b rest tries
          (if cs = [] then h else if h = [] then cN else h)
          (res ++ cs.map (mkRow cN.length)) (f + cs.length) (r + cs.length) := by
  induction cs with
  | nil => intro rest tries h res f r _; simp [rowTrace]
  | cons c cs ih =>
    intro rest tries h res f r hbound
    have hcond : f < L ∨ L ≤ 0 := by
      rcases hbound with h1 | h1
      · exact Or.inr h1
      · simp only [List.length_cons] at h1
        left; push_cast at h1; omega
    have hstep : execLoop cN L b (rowTrace (c :: cs) ++ rest) tries h res f r
        = execLoop cN L b (rowTrace cs ++ rest) tries
            (if h = [] then cN else h) (res ++ [mkRow cN.length c])
            (f + 1) (r + 1) := by
      rw [rowTrace, List.map_cons, List.cons_append, execLoop, if_pos hcond]
      rfl
    have hbound' : L ≤ 0 ∨ (f + 1) + (cs.length : Int) ≤ L := by
      rcases hbound with h1 | h1
      · exact Or.inl h1
      · right; simp only [List.length_cons] at h1; push_cast at h1 ⊢; omega
    rw [hstep, ih rest tries (if h = [] then cN else h)
        (res ++ [mkRow cN.length c]) (f + 1) (r + 1) hbound']
    have e1 : f + ((c :: cs).length : Int) = f + 1 + (cs.length : Int) := by
      simp only [List.length_cons]; push_cast; ring
    have e2 : r + (c :: cs).length = r + 1 + cs.length := by
      simp only [List.length_cons]; omega
    have e3 : res ++ (c :: cs).map (mkRow cN.length)
        = (res ++ [mkRow cN.length c]) ++ cs.map (mkRow cN.length) := by simp
    have e4 : (if (c :: cs) = [] then h else if h = [] then cN else h)
        = (if h = [] then cN else h) := by simp
    rw [e1, e2, e3, e4]
    have hH : (if cs = [] then (if h = [] then cN else h)
        else if (if h = [] then cN else h) = [] then cN
        else (if h = [] then cN else h)) = (if h = [] then cN else h) := by
      by_cases hcs : cs = []
      · simp [hcs]
      · by_cases hh : h = []
        · by_cases hcN : cN = [] <;> simp [hcs, hh, hcN]
        · simp [hcs, hh]
    rw [hH]

/-- The built row always has exactly `columns` cells. -/
theorem mkRow_length (n : Nat) (cells : List String) :
    (mkRow n cells).length = n := by simp [mkRow]

/-- `finalize` on a non-empty buffer whose length matches the loop counter
returns the buffer (reversed when `reverse`) as a `ResultSet`. -/
theorem execFinalize_rows (b : Bool) (cN : List String)
    (res : List (List String)) (hres : res ≠ []) :
    execFinalize b cN res res.length
      = .ok (some (ResultSet.make cN (if b then res.reverse else res))) := by
  have h0 : res.length ≠ 0 := fun h => hres (List.length_eq_zero.1 h)
  by_cases hb : b <;> simp [execFinalize, h0, hb]

/-- `execLoop_rows` from the initial empty loop state, with the arguments in
normal form. -/
theorem exec_rows_clean (cN : List String) (L : Int) (b : Bool)
    (cs : List (List String)) (tail : List StepResult) (tries : Int)
    (hbound : L ≤ 0 ∨ (cs.length : Int) ≤ L) :
    execLoop cN L b (rowTrace cs ++ tail) tries [] [] 0 0
      = execLoop cN L b tail tries (if cs = [] then [] else cN)
          (cs.map (mkRow cN.length)) (cs.length : Int) cs.length := by
  rw [execLoop_rows cN L b cs tail tries [] [] 0 0 ?_]
  · simp
  · rcases hbound with h | h
    · exact Or.inl h
    · right; omega

/-- Whatever `finalize` returns as a `ResultSet` satisfies the structural
invariants, provided the loop state does. -/
theorem execFinalize_ok_inv (cN : List String) (b : Bool) (h : List String)
    (res : List (List String)) (r : Nat) (rs : ResultSet)
    (hres : res ≠ [] → h = cN) (hlen : ∀ x ∈ res, x.length = cN.length)
    (hr : r ≤ res.length)
    (hx : execFinalize b h res r = .ok (some rs)) :
    rs.headers = cN ∧ rs.data ≠ [] ∧ rs.rows = rs.data.length ∧
    rs.columns = rs.headers.length ∧ ∀ x ∈ rs.data, x.length = cN.length := by
  unfold execFinalize at hx
  by_cases hr0 : r ≠ 0
  · rw [if_pos hr0] at hx
    have hrs : rs = ResultSet.make h (if b ∧ r ≠ 0 then res.reverse else res) := by
      injection hx with hx'; injection hx' with hx''; exact hx''.symm
    have hresne : res ≠ [] := by
      intro hnil; rw [hnil] at hr; simp at hr; omega
    have hhead : h = cN := hres hresne
    subst hrs
    refine ⟨hhead, ?_, rfl, rfl, ?_⟩
    · by_cases hb : b ∧ r ≠ 0 <;> simp [ResultSet.make, hb, hresne]
    · intro x hxm
      by_cases hb : b ∧ r ≠ 0
      · rw [if_pos hb] at hxm
        exact hlen x (List.mem_reverse.1 (by simpa [ResultSet.make] using hxm))
      · rw [if_neg hb] at hxm
        exact hlen x (by simpa [ResultSet.make] using hxm)
  · rw [if_neg hr0] at hx
    exact absurd hx (by simp)

/-- Invariant preservation over the whole stepping loop: any `ResultSet` the
loop ever returns has the registered column names as headers, a non-empty
data list, counts that match, and rows of exactly `columns` cells. -/
theorem execLoop_ok_inv (cN : List String) (L : Int) (b : Bool) :
    ∀ (trace : List StepResult) (tries : Int) (h : List String)
      (res : List (List String)) (f : Int) (r : Nat) (rs : ResultSet),
      (h = [] ∨ h = cN) → (res ≠ [] → h = cN) →
      (∀ x ∈ res, x.length = cN.length) → r ≤ res.length →
      execLoop cN L b trace tries h res f r = .ok (some rs) →
      rs.headers = cN ∧ rs.data ≠ [] ∧ rs.rows = rs.data.length ∧
      rs.columns = rs.headers.length ∧ ∀ x ∈ rs.data, x.length = cN.length := by
  intro trace
  induction trace with
  | nil =>
    intro tries h res f r rs h1 h2 h3 h4 hx
    rw [execLoop] at hx
    by_cases hc : f < L ∨ L ≤ 0
    · rw [if_pos hc] at hx; exact absurd hx (by simp)
    · rw [if_neg hc] at hx; exact execFinalize_ok_inv cN b h res r rs h2 h3 h4 hx
  | cons s rest ih =>
    intro tries h res f r rs h1 h2 h3 h4 hx
    cases s with
    | row cells =>
      rw [execLoop] at hx
      by_cases hc : f < L ∨ L ≤ 0
      · rw [if_pos hc] at hx
        have hH : (if h = [] then cN else h) = cN := by
          rcases h1 with h1 | h1 <;> simp [h1]
        refine ih tries (if h = [] then cN else h)
          (res ++ [mkRow cN.length cells]) (f + 1) (r + 1) rs
          (Or.inr hH) (fun _ => hH) ?_ ?_ hx
        · intro x hxm
          rcases List.mem_append.1 hxm with hm | hm
          · exact h3 x hm
          · have : x = mkRow cN.length cells := by simpa using hm
            rw [this]; exact mkRow_length _ _
        · simp; omega
      · rw [if_neg hc] at hx
        exact execFinalize_ok_inv cN b h res r rs h2 h3 h4 hx
    | constraint =>
      rw [execLoop, ite_self] at hx
      exact execFinalize_ok_inv cN b h res r rs h2 h3 h4 hx
    | done =>
      rw [execLoop, ite_self] at hx
      exact execFinalize_ok_inv cN b h res r rs h2 h3 h4 hx
    | busy =>
      rw [execLoop] at hx
      by_cases hc : f < L ∨ L ≤ 0
      · rw [if_pos hc] at hx
        by_cases ht : tries ≤ 0
        · rw [if_pos ht] at hx; exact absurd hx (by simp)
        · rw [if_neg ht] at hx
          exact ih (tries - 1) h res 0 0 rs h1 h2 h3 (by omega) hx
      · rw [if_neg hc] at hx
        exact execFinalize_ok_inv cN b h res r rs h2 h3 h4 hx
    | locked =>
      rw [execLoop] at hx
      by_cases hc : f < L ∨ L ≤ 0
      · rw [if_pos hc] at hx
        by_cases ht : tries ≤ 0
        · rw [if_pos ht] at hx; exact absurd hx (by simp)
        · rw [if_neg ht] at hx
          exact ih (tries - 1) h res 0 0 rs h1 h2 h3 (by omega) hx
      · rw [if_neg hc] at hx
        exact execFinalize_ok_inv cN b h res r rs h2 h3 h4 hx
    | otherError c =>
      rw [execLoop] at hx
      by_cases hc : f < L ∨ L ≤ 0
      · rw [if_pos hc] at hx; exact absurd hx (by simp)
      · rw [if_neg hc] at hx
        exact execFinalize_ok_inv cN b h res r rs h2 h3 h4 hx

/-! # Claims -/

/-- C5: `DBObject::quote` maps the empty string to the unquoted `null`
keyword; a non-empty input is wrapped in single quotes and transformed
character by character exactly as the spec describes — embedded single
quotes doubled, tab and newline passed through, other non-printable
characters dropped, printable characters kept (so `quote("it's")`
is `'it''s'`). -/
theorem quote_matches_spec :
    DBObject.quote [] = "null".toList ∧
    (∀ s : List Char, s ≠ [] →
      DBObject.quote s = '\'' :: (s.flatMap quoteSpecChar) ++ ['\'']) ∧
    DBObject.quote "it's".toList = "'it''s'".toList := by
  refine ⟨rfl, ?_, by decide⟩
  intro s hs
  rw [DBObject.quote, if_neg hs, quoteLoop_eq]
  simp

/-- Witness for C5: the non-empty case at a concrete input holding a
non-printable byte, a tab and an embedded quote. -/
theorem quote_matches_spec_witness :
    DBObject.quote "a\x01b\t'".toList
      = '\'' :: ("a\x01b\t'".toList.flatMap quoteSpecChar) ++ ['\''] :=
  quote_matches_spec.2.1 "a\x01b\t'".toList (by decide)

/-- C7 (amended): the backoff delay equals `fixed + rand % jitter` with the
generator seeded from `time ^ pid` when the configured jitter is positive —
and then lies in `[fixed, fixed + jitter)` — and equals `fixed` when the
configured jitter is not positive; the delay depends on the generator only
through the value drawn at seed `time ^^^ pid`. -/
theorem ash_delay_spec (randf : Nat → Nat) (timeNow pid : Nat) (f j : Int)
    (hf : 0 ≤ f) :
    (0 < j →
      ash_delay randf timeNow pid f j
          = f.toNat + randf (timeNow ^^^ pid) % j.toNat ∧
      f.toNat ≤ ash_delay randf timeNow pid f j ∧
      ash_delay randf timeNow pid f j < f.toNat + j.toNat) ∧
    (j ≤ 0 → ash_delay randf timeNow pid f j = f.toNat) ∧
    (∀ g : Nat → Nat, randf (timeNow ^^^ pid) = g (timeNow ^^^ pid) →
      ash_delay randf timeNow pid f j = ash_delay g timeNow pid f j) := by
  have hfneg : ¬ f < 0 := by omega
  refine ⟨?_, ?_, ?_⟩
  · intro hj
    have hjneg : ¬ j < 0 := by omega
    have hmod : randf (timeNow ^^^ pid) % j.toNat < j.toNat :=
      Nat.mod_lt _ (by omega)
    unfold ash_delay
    rw [if_neg hfneg, if_neg hjneg, if_pos hj]
    exact ⟨rfl, by omega, by omega⟩
  · intro hj
    unfold ash_delay
    by_cases hjneg : j < 0
    · rw [if_neg hfneg, if_pos hjneg, if_neg (by omega)]
    · rw [if_neg hfneg, if_neg hjneg, if_neg (by omega)]
  · intro g hg
    unfold ash_delay
    rw [hg]

/-- Witness for C7: concrete fixed delay 4, jitter 5, generator drawing 13
at seed `1 ^^^ 2`. -/
theorem ash_delay_spec_witness :
    ash_delay (fun _ => 13) 1 2 4 5
        = (4 : Int).toNat + (fun _ : Nat => 13) (1 ^^^ 2) % (5 : Int).toNat ∧
    (4 : Int).toNat ≤ ash_delay (fun _ => 13) 1 2 4 5 ∧
    ash_delay (fun _ => 13) 1 2 4 5 < (4 : Int).toNat + (5 : Int).toNat :=
  (ash_delay_spec (fun _ => 13) 1 2 4 5 (by decide)).1 (by decide)

/-- C7 counterexample: with `max_jitter_ms = 0` the computed delay equals
the fixed delay, which does not lie in the empty half-open interval
`[fixed, fixed + 0)` — the claim's "the delay always lies in
`[fixed_delay_ms, fixed_delay_ms + max_jitter_ms)`" fails there. -/
theorem ash_delay_cex :
    ash_delay (fun _ => 0) 0 0 7 0 = 7 ∧
    ¬ (ash_delay (fun _ => 0) 0 0 7 0 < 7 + 0) := by decide

/-- C2 counterexample: with 2 registered tables and 3 found, the constructor
does run `init_db()` (first component `true`), contradicting the claim that
no table-creation DDL is executed. -/
theorem databaseBootstrap_cex :
    (databaseBootstrap 2 3).1 = true ∧ (databaseBootstrap 2 3).2 = true := by
  decide

/-- C2 (amended): when more registered tables exist in the store than the
registry holds, the constructor runs `init_db()` (whose
`CREATE TABLE IF NOT EXISTS` statements are no-ops for existing tables) and
logs a non-fatal warning; neither path aborts the process. -/
theorem databaseBootstrap_drift (r d : Nat) (h : r < d) :
    databaseBootstrap r d = (true, true) := by
  unfold databaseBootstrap
  rw [if_neg (by omega)]
  simp [h]

/-- Witness for C2 (amended): 1 registered table, 2 found. -/
theorem databaseBootstrap_drift_witness :
    databaseBootstrap 1 2 = (true, true) :=
  databaseBootstrap_drift 1 2 (by decide)

/-- C9: `Database::insert` returns 0 at once on a null object, leaving the
connection state untouched (no SQL executed); on a non-null object it
applies the connection effect of executing the rendered INSERT statement and
returns the engine's last-inserted row id; the rendered statement joins the
ordered columns and literals. -/
theorem insert_spec (e : String → DBState → DBState) (st : DBState) :
    Database.insert e none st = (0, st) ∧
    (∀ o, Database.insert e (some o) st
      = ((e (DBObject.get_sql o) st).lastInsertRowid,
         e (DBObject.get_sql o) st)) ∧
    DBObject.get_sql ⟨"commands", [("argv", "'ls'"), ("rval", "0")]⟩
      = "INSERT INTO commands (argv, rval) VALUES ('ls', 0); " :=
  ⟨rfl, fun _ => rfl, by decide⟩

/-- C6: `prepare_stmt` retries a contention compile failure (after a backoff
sleep — one sleep per retry) up to `max_retries` (default 5) additional
attempts; exhausting the attempts is fatal; any other compile error is
immediately fatal; a statement is returned only when a compile attempt
succeeded (after only busy/locked failures). -/
theorem prepare_stmt_spec (cfg : Int) (k : Nat) (rest : List PrepResult)
    (c : Nat) :
    ((k : Int) ≤ effectiveMaxRetries cfg →
      prepare_stmt cfg (List.replicate k .busy ++ .success :: rest) = .ok k) ∧
    (prepare_stmt cfg
        (List.replicate ((effectiveMaxRetries cfg).toNat + 1) .busy ++ rest)
      = .fatal) ∧
    (prepare_stmt cfg (.otherError c :: rest) = .fatal) ∧
    (cfg ≤ 0 → effectiveMaxRetries cfg = 5) ∧
    (∀ t s, prepare_stmt cfg t = .ok s →
      ∃ pre post, t = pre ++ .success :: post ∧ pre.length = s ∧
        ∀ x ∈ pre, x = PrepResult.busy ∨ x = PrepResult.locked) := by
  have hm : 1 ≤ effectiveMaxRetries cfg := by
    unfold effectiveMaxRetries
    by_cases h : cfg ≤ 0
    · simp [h]
    · simp [h]; omega
  refine ⟨?_, ?_, ?_, ?_, ?_⟩
  · intro hk
    have := prepGo_busy_ok k (effectiveMaxRetries cfg + 1) rest 0 (by omega)
    simpa [prepare_stmt] using this
  · exact prepGo_busy_fatal _ (effectiveMaxRetries cfg + 1) rest 0
      (by omega) (by push_cast; omega)
  · rfl
  · intro h; simp [effectiveMaxRetries, h]
  · intro t s h
    obtain ⟨pre, post, h1, h2, h3⟩ := prepGo_ok_shape t _ 0 s h
    exact ⟨pre, post, h1, by omega, h3⟩

/-- Witness for C6: default configuration (`get_int` returned -1), two busy
responses then success: the statement is prepared after two sleeps. -/
theorem prepare_stmt_spec_witness :
    prepare_stmt (-1) (List.replicate 2 .busy ++ .success :: []) = .ok 2 :=
  (prepare_stmt_spec (-1) 2 [] 0).1 (by decide)

/-- C10 counterexample: configuring `DB_MAX_RETRIES = 1` leaves only one
retry, so a contention path with two busy compile responses is fatal even
though a success would follow — refuting "every contention path always has
at least 5 retry attempts available". -/
theorem retries_coercion_cex :
    effectiveMaxRetries 1 = 1 ∧
    prepare_stmt 1 [.busy, .busy, .success] = .fatal := by decide

/-- C10 (amended): in both `prepare_stmt` and `exec` a configured
`DB_MAX_RETRIES ≤ 0` is coerced to 5 and the try budget is
`max_retries + 1`, so a caller cannot configure zero retries: at least one
retry is always available (a single contention response is always survived),
and the full budget allows `max_retries` retries after the first attempt. -/
theorem retries_coercion (cfg : Int) :
    (cfg ≤ 0 → effectiveMaxRetries cfg = 5) ∧
    1 ≤ effectiveMaxRetries cfg ∧
    (∀ t, prepare_stmt cfg (.busy :: .success :: t) = .ok 1) ∧
    (∀ (cN : List String) t (L : Int) (b : Bool),
      Database.exec cN (.busy :: .done :: t) cfg L b = .ok none) ∧
    (∀ t, prepare_stmt cfg
        (List.replicate (effectiveMaxRetries cfg).toNat .busy ++ .success :: t)
      = .ok (effectiveMaxRetries cfg).toNat) := by
  have hm : 1 ≤ effectiveMaxRetries cfg := by
    unfold effectiveMaxRetries
    by_cases h : cfg ≤ 0
    · simp [h]
    · simp [h]; omega
  refine ⟨?_, hm, ?_, ?_, ?_⟩
  · intro h; simp [effectiveMaxRetries, h]
  · intro t
    have := prepGo_busy_ok 1 (effectiveMaxRetries cfg + 1) t 0 (by omega)
    simpa [prepare_stmt] using this
  · intro cN t L b
    have hcond : (0 : Int) < L ∨ L ≤ 0 := by omega
    rw [Database.exec, execLoop, if_pos hcond, if_neg (by omega), execLoop,
      if_pos hcond]
    simp [execFinalize]
  · intro t
    have := prepGo_busy_ok (effectiveMaxRetries cfg).toNat
      (effectiveMaxRetries cfg + 1) t 0 (by omega)
    simpa [prepare_stmt] using this

/-- Witness for C10 (amended): configured value 3 is used as-is, a single
contention is survived by both functions, and 3 retries then success is
within budget. -/
theorem retries_coercion_witness :
    1 ≤ effectiveMaxRetries 3 ∧
    prepare_stmt 3 [.busy, .success] = .ok 1 ∧
    Database.exec ["h"] [.busy, .done] 3 0 false = .ok none ∧
    prepare_stmt 3
        (List.replicate (effectiveMaxRetries 3).toNat .busy ++ .success :: [])
      = .ok (effectiveMaxRetries 3).toNat := by
  obtain ⟨h1, h2, h3, h4, h5⟩ := retries_coercion 3
  exact ⟨h2, h3 [], h4 ["h"] [] 0 false, h5 []⟩

/-- C1 (code divergence): the `try_sql` retry label resets `fetched` (and
the for loop resets `rows`) but does **not** clear `results` or `headers`,
so a row fetched before a contention response stays in the buffer; when the
re-prepared statement produces the same row again and completes, the
returned `ResultSet` surfaces the pre-contention row — duplicated. -/
theorem exec_retry_keeps_buffer :
    Database.exec ["x"] [.row ["a"], .busy, .row ["a"], .done] (-1) 0 false
      = .ok (some (ResultSet.make ["x"] [["a"], ["a"]])) := by decide

/-- C3 counterexample: a constraint violation hit after one row was
collected returns that row in a `ResultSet`, not the absent/null result the
claim requires "regardless of how many rows had been collected". -/
theorem exec_constraint_cex :
    Database.exec ["x"] [.row ["b"], .constraint] (-1) 0 false
        = .ok (some (ResultSet.make ["x"] [["b"]])) ∧
    Database.exec ["x"] [.row ["b"], .constraint] (-1) 0 false
        ≠ .ok none := by decide

/-- C3 (amended): in a contention-free execution whose limit does not cut
the run short, a constraint-violation response terminates stepping with no
retry and is handled exactly like normal completion (`SQLITE_DONE`): the
absent/null result is returned precisely when zero rows had been collected,
and otherwise the rows collected before the violation are returned. -/
theorem exec_constraint_spec (cN : List String) (cs : List (List String))
    (suffix : List StepResult) (cfg L : Int) (b : Bool)
    (hL : L ≤ 0 ∨ (cs.length : Int) < L) :
    (Database.exec cN (rowTrace cs ++ .constraint :: suffix) cfg L b =
      (if cs = [] then ExecOutcome.ok none
       else ExecOutcome.ok (some (ResultSet.make cN
         (if b then (cs.map (mkRow cN.length)).reverse
          else cs.map (mkRow cN.length)))))) ∧
    Database.exec cN (rowTrace cs ++ .constraint :: suffix) cfg L b =
      Database.exec cN (rowTrace cs ++ .done :: suffix) cfg L b := by
  have hbound : L ≤ 0 ∨ (cs.length : Int) ≤ L := by
    rcases hL with h | h
    · exact Or.inl h
    · right; omega
  have key : ∀ tail : List StepResult,
      execLoop cN L b (rowTrace cs ++ tail) (effectiveMaxRetries cfg + 1)
          [] [] 0 0 = execLoop cN L b tail (effectiveMaxRetries cfg + 1)
          (if cs = [] then ([] : List String) else cN)
          (cs.map (mkRow cN.length)) (cs.length : Int) cs.length :=
    fun tail => exec_rows_clean cN L b cs tail _ hbound
  constructor
  · rw [Database.exec, key, execLoop, ite_self]
    by_cases hcs : cs = []
    · subst hcs; simp [execFinalize]
    · have hmapne : cs.map (mkRow cN.length) ≠ [] := by simpa using hcs
      have hr : cs.length = (cs.map (mkRow cN.length)).length := by simp
      rw [if_neg hcs, hr, execFinalize_rows b cN _ hmapne, if_neg hcs]
  · rw [Database.exec, Database.exec, key, key, execLoop, execLoop, ite_self]

/-- Witness for C3 (amended): two rows then a constraint violation, no
limit: both rows come back in a `ResultSet`. -/
theorem exec_constraint_spec_witness :
    Database.exec ["x"] (rowTrace [["b"], ["c"]] ++ [.constraint]) (-1) 0 false
      = .ok (some (ResultSet.make ["x"] [["b"], ["c"]])) := by
  have h := (exec_constraint_spec ["x"] [["b"], ["c"]] [] (-1) 0 false
    (Or.inl (by omega))).1
  rw [h]; decide

/-- C4 counterexample: with `limit = 0` (unlimited) the engine produces a
row, then contention, then completion; a row was collected, yet the call
returns the null result (the final attempt's `rows` counter — not the
buffer — decides), refuting "returns a ResultSet exactly when at least one
row was collected". -/
theorem exec_limit_cex :
    Database.exec ["x"] [.row ["a"], .busy, .done] (-1) 0 false
      = .ok none := by decide

/-- C4 (amended): in a contention-free execution, row collection stops as
soon as `limit` rows have been fetched when `limit > 0` and collects every
produced row when `limit <= 0`; the reversal requested by `reverse` applies
to the collected (already truncated) rows; a `ResultSet` is returned exactly
when at least one row was collected, the null result otherwise. -/
theorem exec_limit_reverse (cN : List String) (cs : List (List String))
    (suffix : List StepResult) (cfg L : Int) (b : Bool) :
    Database.exec cN (rowTrace cs ++ .done :: suffix) cfg L b =
      (if (if 0 < L then cs.take L.toNat else cs) = [] then ExecOutcome.ok none
       else ExecOutcome.ok (some (ResultSet.make cN
         (if b then ((if 0 < L then cs.take L.toNat else cs).map
                       (mkRow cN.length)).reverse
          else (if 0 < L then cs.take L.toNat else cs).map
                 (mkRow cN.length))))) := by
  by_cases hL : 0 < L
  · by_cases hlen : (cs.length : Int) ≤ L
    · -- all rows fit within the limit
      have htake : cs.take L.toNat = cs := List.take_of_length_le (by omega)
      rw [Database.exec, exec_rows_clean cN L b cs _ _ (Or.inr hlen),
        execLoop, ite_self, if_pos hL, htake]
      by_cases hcs : cs = []
      · subst hcs; simp [execFinalize]
      · have hmapne : cs.map (mkRow cN.length) ≠ [] := by simpa using hcs
        have hr : cs.length = (cs.map (mkRow cN.length)).length := by simp
        rw [if_neg hcs, hr, execFinalize_rows b cN _ hmapne, if_neg hcs]
    · -- the limit cuts the run short after limit rows
      have hk1 : 1 ≤ L.toNat := by omega
      have hkle : L.toNat ≤ cs.length := by omega
      have hklen : (cs.take L.toNat).length = L.toNat := by
        rw [List.length_take]; omega
      have hsplit : rowTrace cs ++ (StepResult.done :: suffix)
          = rowTrace (cs.take L.toNat)
            ++ (rowTrace (cs.drop L.toNat) ++ (StepResult.done :: suffix)) := by
        rw [← List.append_assoc, rowTrace, rowTrace, rowTrace,
          ← List.map_append, List.take_append_drop]
      have htne : cs.take L.toNat ≠ [] := by
        intro h0
        rw [h0] at hklen
        simp at hklen
        omega
      rw [Database.exec, hsplit,
        exec_rows_clean cN L b (cs.take L.toNat) _ _
          (Or.inr (by rw [hklen]; omega)),
        execLoop_stop cN L b _ _ _ _ _ _ (by rw [hklen]; omega),
        if_pos hL, if_neg htne]
      have hr : (cs.take L.toNat).length
          = ((cs.take L.toNat).map (mkRow cN.length)).length := by simp
      rw [hr, execFinalize_rows b cN _ (by simpa using htne), if_neg htne]
  · -- limit <= 0: unlimited
    have hL0 : L ≤ 0 := by omega
    rw [Database.exec, exec_rows_clean cN L b cs _ _ (Or.inl hL0),
      execLoop, ite_self, if_neg hL]
    by_cases hcs : cs = []
    · subst hcs; simp [execFinalize]
    · have hmapne : cs.map (mkRow cN.length) ≠ [] := by simpa using hcs
      have hr : cs.length = (cs.map (mkRow cN.length)).length := by simp
      rw [if_neg hcs, hr, execFinalize_rows b cN _ hmapne, if_neg hcs]

/-- C8: every `ResultSet` returned by `exec` satisfies the invariants:
`rows` equals the number of data rows, `columns` the number of header
entries, every data row has exactly `columns` cells, the data is never
empty (a zero-row completion yields the null result instead), and the
constructor itself always fixes `rows`/`columns` to the lengths of its two
arguments. -/
theorem exec_resultset_inv (cN : List String) (trace : List StepResult)
    (cfg L : Int) (b : Bool) (rs : ResultSet)
    (hx : Database.exec cN trace cfg L b = .ok (some rs)) :
    rs.rows = rs.data.length ∧ rs.columns = rs.headers.length ∧
    (∀ x ∈ rs.data, x.length = rs.columns) ∧ rs.data ≠ [] ∧
    ∀ (h : List String) (d : List (List String)),
      (ResultSet.make h d).rows = d.length ∧
      (ResultSet.make h d).columns = h.length := by
  obtain ⟨hh, hne, hrows, hcols, hlen⟩ :=
    execLoop_ok_inv cN L b trace _ [] [] 0 0 rs (Or.inl rfl) (by simp)
      (by simp) (by simp) hx
  refine ⟨hrows, hcols, ?_, hne, fun h d => ⟨rfl, rfl⟩⟩
  intro x hxm
  rw [hcols, hh]
  exact hlen x hxm

/-- Witness for C8: a one-row, one-column query. -/
theorem exec_resultset_inv_witness :
    (ResultSet.make ["c"] [["v"]]).rows
        = (ResultSet.make ["c"] [["v"]]).data.length ∧
    (ResultSet.make ["c"] [["v"]]).columns
        = (ResultSet.make ["c"] [["v"]]).headers.length ∧
    (∀ x ∈ (ResultSet.make ["c"] [["v"]]).data,
        x.length = (ResultSet.make ["c"] [["v"]]).columns) ∧
    (ResultSet.make ["c"] [["v"]]).data ≠ [] ∧
    ∀ (h : List String) (d : List (List String)),
      (ResultSet.make h d).rows = d.length ∧
      (ResultSet.make h d).columns = h.length :=
  exec_resultset_inv ["c"] [.row ["v"], .done] (-1) 0 false
    (ResultSet.make ["c"] [["v"]]) (by decide)

end ash
